import Mathlib

/-!
Shallow embedding of the credential-verification core of the repository
(`kroger_checker_strict_proxy.py`, `kroger_checker_final.py`,
`kroger_checker_browser.py`, `email_checker_final.py`).

Network interactions are modelled by explicit environments: an environment
assigns to every attempt index the observable outcome of that attempt
(exception raised, or an HTTP response with a status code and parsed body),
and to every proxy-rotation call the sequence of acquisition outcomes.
The Python control flow is then translated statement by statement into
total Lean functions over these environments.
-/

/-- A JSON value as far as the checker inspects it (the value of the
`token` field of a 200 response body).  Python truthiness of such a value
decides validity (`if token:`). -/
inductive JVal where
  | jnull
  | jstr (s : String)
  | jnum (n : Int)
  | jbool (b : Bool)
deriving DecidableEq, Repr

/-- Python truthiness of a JSON value. -/
def jTruthy : JVal → Bool
  | .jnull => false
  | .jstr s => s != ""
  | .jnum n => n != 0
  | .jbool b => b

/-- Python truthiness of `_get_auth_token`'s return value
(`None` is falsy, otherwise the truthiness of the value). -/
def tokenTruthy : Option JVal → Bool
  | none => false
  | some v => jTruthy v

/-! ## Proxy rotation (`_rotate_proxy`, strict_proxy lines 35-71) -/

/-- Outcome of one iteration of the `_rotate_proxy` acquisition loop:
`FreeProxy(...).get()` raised (the code logs and sleeps 1s), returned a
falsy proxy, returned a proxy whose test request raised, or returned a
proxy whose test request produced the given status code. -/
inductive AcqEvent where
  | acqRaise
  | acqNone
  | testRaise (p : String)
  | testResp (p : String) (code : Nat)
deriving DecidableEq, Repr

/-- An acquisition iteration succeeds iff a proxy was obtained and its
test request returned status 200. -/
def acqSuccess : AcqEvent → Bool
  | .testResp _ code => code == 200
  | _ => false

/-- The proxy delivered by a successful acquisition iteration. -/
def acqProxy : AcqEvent → Option String
  | .testRaise p => some p
  | .testResp p _ => some p
  | _ => none

/-- The `for attempt in range(max_retries)` loop of `_rotate_proxy`.
Arguments: the per-iteration events, the current iteration index, the
remaining iteration budget, the current `self.proxy`.  Returns
(successful proxy if any, final `self.proxy`, iterations consumed,
seconds slept inside the loop). -/
def rotateGo (events : Nat → AcqEvent) : Nat → Nat → Option String →
    Option String × Option String × Nat × Nat
  | _, 0, p => (none, p, 0, 0)
  | i, n + 1, p =>
    match events i with
    | .acqRaise =>
      let r := rotateGo events (i + 1) n p
      (r.1, r.2.1, r.2.2.1 + 1, r.2.2.2 + 1)
    | .acqNone =>
      let r := rotateGo events (i + 1) n none
      (r.1, r.2.1, r.2.2.1 + 1, r.2.2.2)
    | .testRaise pr =>
      let r := rotateGo events (i + 1) n (some pr)
      (r.1, r.2.1, r.2.2.1 + 1, r.2.2.2)
    | .testResp pr code =>
      if code == 200 then (some pr, some pr, 1, 0)
      else
        let r := rotateGo events (i + 1) n (some pr)
        (r.1, r.2.1, r.2.2.1 + 1, r.2.2.2)

/-- Result of one `_rotate_proxy(strict)` call: the boolean the Python
function returns, the final `self.proxy`, the number of acquisition
iterations consumed, and the seconds slept. -/
structure Rotation where
  ok : Bool
  proxy : Option String
  attempts : Nat
  slept : Nat
deriving DecidableEq, Repr

/-- `_rotate_proxy(strict)`: `max_retries = 5 if strict else 3`; on total
failure, strict mode returns `False` and non-strict mode clears the proxy
and returns `True`. -/
def rotate_proxy (strict : Bool) (events : Nat → AcqEvent) (p0 : Option String) :
    Rotation :=
  let m := if strict then 5 else 3
  match rotateGo events 0 m p0 with
  | (some _, q, c, s) => ⟨true, q, c, s⟩
  | (none, q, c, s) =>
    if strict then ⟨false, q, c, s⟩ else ⟨true, none, c, s⟩

/-! ## The auth attempt loop (`_get_auth_token`, strict_proxy lines 73-128) -/

/-- Outcome of `response.json().get('token')` on a 200 response:
`json()` raised `JSONDecodeError` (caught, returns `None`), `.get` raised
(non-dict JSON; caught by the generic handler, returns `None`), or the
`token` field's value (`none` when absent or when the field is missing). -/
inductive ParseOutcome where
  | decodeError
  | attrError
  | fields (token : Option JVal)
deriving DecidableEq, Repr

/-- Observable outcome of one iteration of the `_get_auth_token` loop:
a `requests.exceptions.RequestException` during the GET or POST, any
other exception, or a POST response with status code and body parse. -/
inductive AttemptEvent where
  | raiseReq
  | raiseOther
  | resp (status : Nat) (parse : ParseOutcome)
deriving DecidableEq, Repr

/-- What `return response.json().get('token')` yields on each parse
outcome (exceptions degrade to `None`). -/
def parseToken : ParseOutcome → Option JVal
  | .fields t => t
  | _ => none

/-- `response.status_code in [403, 429]`. -/
def isRateLimit (s : Nat) : Bool := s == 403 || s == 429

/-- A recognized success signal: HTTP 200 whose body yields a truthy
`token` field. -/
def successEvent : AttemptEvent → Bool
  | .resp s parse => s == 200 && tokenTruthy (parseToken parse)
  | _ => false

/-- A clean rejection: a well-formed 200 response lacking the success
indicator (the `token` field absent, null, empty, or otherwise falsy). -/
def rejectedEvent : AttemptEvent → Bool
  | .resp s (.fields t) => s == 200 && !(tokenTruthy t)
  | _ => false

/-- A transient outcome: a network/request error
(`requests.exceptions.RequestException`). -/
def transientEvent : AttemptEvent → Bool
  | .raiseReq => true
  | _ => false

/-- A rate-limited outcome: a response with status 403 or 429. -/
def rateLimitedEvent : AttemptEvent → Bool
  | .resp s _ => isRateLimit s
  | _ => false

/-- Environment of one `_get_auth_token` call: the outcome of each attempt
iteration and, for each rotation call made during the loop (numbered in
call order), the acquisition events it observes. -/
structure AuthEnv where
  events : Nat → AttemptEvent
  rots : Nat → Nat → AcqEvent

/-- Result of a `_get_auth_token` run: the returned token (`none` for
Python `None`), the number of attempt iterations entered, a log holding,
per iteration, its event and the total cooldown slept before the next
iteration (rotation-internal sleeps plus the explicit `time.sleep(2)` of
the transient branch), the final `self.proxy`, and the number of rotation
calls made. -/
structure AuthRun where
  token : Option JVal
  attempts : Nat
  log : List (AttemptEvent × Nat)
  proxy : Option String
  rotCalls : Nat
deriving Repr

/-- The `for attempt in range(max_retries)` loop of `_get_auth_token`.
Arguments: `use_proxy`, the environment, the current attempt index, the
remaining iteration budget, the rotation-call counter, the current
`self.proxy`. -/
def authGo (useProxy : Bool) (env : AuthEnv) : Nat → Nat → Nat → Option String →
    AuthRun
  | i, 0, r, p => ⟨none, i, [], p, r⟩
  | i, n + 1, r, p =>
    match env.events i with
    | .raiseOther => ⟨none, i + 1, [(.raiseOther, 0)], p, r⟩
    | .resp s parse =>
      if s == 200 then ⟨parseToken parse, i + 1, [(.resp s parse, 0)], p, r⟩
      else if isRateLimit s then
        let rot := rotate_proxy useProxy (env.rots r) p
        if rot.ok then
          let rest := authGo useProxy env (i + 1) n (r + 1) rot.proxy
          ⟨rest.token, rest.attempts, (.resp s parse, rot.slept) :: rest.log,
            rest.proxy, rest.rotCalls⟩
        else ⟨none, i + 1, [(.resp s parse, rot.slept)], rot.proxy, r + 1⟩
      else ⟨none, i + 1, [(.resp s parse, 0)], p, r⟩
    | .raiseReq =>
      if n == 0 then ⟨none, i + 1, [(.raiseReq, 0)], p, r⟩
      else
        let rot := rotate_proxy useProxy (env.rots r) p
        if rot.ok then
          let rest := authGo useProxy env (i + 1) n (r + 1) rot.proxy
          ⟨rest.token, rest.attempts, (.raiseReq, rot.slept + 2) :: rest.log,
            rest.proxy, rest.rotCalls⟩
        else ⟨none, i + 1, [(.raiseReq, rot.slept)], rot.proxy, r + 1⟩

/-- `_get_auth_token` with `max_retries = 2`. -/
def get_auth_token (useProxy : Bool) (env : AuthEnv) (p0 : Option String) :
    AuthRun :=
  authGo useProxy env 0 2 0 p0

/-- `check_credentials`: truthiness of the token returned by
`_get_auth_token`. -/
def check_credentials (useProxy : Bool) (env : AuthEnv) (p0 : Option String) :
    Bool :=
  tokenTruthy (get_auth_token useProxy env p0).token

/-! ## The checker state and batch loop
(`check_single` / `check_bulk`, strict_proxy lines 148-177) -/

/-- One result record `{'email': ..., 'password': ..., 'valid': ...,
'proxy': ...}` as built by `check_single`. -/
structure Result where
  email : String
  password : String
  valid : Bool
  proxy : Option String
deriving DecidableEq, Repr

/-- The mutable checker state: the two result collections and the current
`self.proxy`. -/
structure CheckerState where
  validCreds : List Result
  invalidCreds : List Result
  proxy : Option String
deriving DecidableEq, Repr

/-- A credential pair from the input list (`cred['email']`,
`cred['password']`). -/
structure Cred where
  email : String
  password : String
deriving DecidableEq, Repr

/-- `check_single`: runs `check_credentials`, builds the result record
with the post-run `self.proxy`, and appends it to `valid_creds` when
valid and to `invalid_creds` otherwise. -/
def check_single (useProxy : Bool) (env : AuthEnv) (st : CheckerState)
    (email password : String) : Result × CheckerState :=
  let run := get_auth_token useProxy env st.proxy
  let isValid := tokenTruthy run.token
  let r : Result := ⟨email, password, isValid, run.proxy⟩
  if isValid then
    (r, ⟨st.validCreds ++ [r], st.invalidCreds, run.proxy⟩)
  else
    (r, ⟨st.validCreds, st.invalidCreds ++ [r], run.proxy⟩)

/-- Environment of a `check_bulk` run: per credential index, the auth
environment of its `check_single` call, the outcome of the
`random.random() > 0.7` draw, and the acquisition events of the optional
inter-pair rotation. -/
structure BulkEnv where
  auth : Nat → AuthEnv
  interRotate : Nat → Bool
  interRotEvents : Nat → Nat → AcqEvent

/-- The body of `check_bulk`'s loop, from credential index `k`. -/
def check_bulk_go (useProxy : Bool) (benv : BulkEnv) :
    Nat → CheckerState → List Cred → List Result × CheckerState
  | _, st, [] => ([], st)
  | k, st, c :: rest =>
    let one := check_single useProxy (benv.auth k) st c.email c.password
    let st2 :=
      if useProxy && benv.interRotate k then
        ⟨one.2.validCreds, one.2.invalidCreds,
         (rotate_proxy true (benv.interRotEvents k) one.2.proxy).proxy⟩
      else one.2
    let tailRun := check_bulk_go useProxy benv (k + 1) st2 rest
    (one.1 :: tailRun.1, tailRun.2)

/-- `check_bulk`: sequential loop over the credential list, appending each
`check_single` result to the returned list. -/
def check_bulk (useProxy : Bool) (benv : BulkEnv) (st : CheckerState)
    (creds : List Cred) : List Result × CheckerState :=
  check_bulk_go useProxy benv 0 st creds

/-! ## The browser-variant checker (`kroger_checker_browser.py`) -/

/-- A browser-variant result record (no proxy field). -/
structure BResult where
  email : String
  password : String
  valid : Bool
deriving DecidableEq, Repr

/-- Browser-variant checker state: the two result collections. -/
structure BState where
  validCreds : List BResult
  invalidCreds : List BResult
deriving DecidableEq, Repr

/-- Browser-variant `check_single`: `outcome` is the boolean returned by
its `check_credentials` (whose selenium internals are opaque to this
embedding; every exception path in it returns `False`). -/
def bcheck_single (outcome : Bool) (st : BState) (email password : String) :
    BResult × BState :=
  let r : BResult := ⟨email, password, outcome⟩
  if outcome then (r, ⟨st.validCreds ++ [r], st.invalidCreds⟩)
  else (r, ⟨st.validCreds, st.invalidCreds ++ [r]⟩)

/-! ## The custom-check loop of `inboxmail` (`email_checker_final.py`,
lines 217-222) -/

/-- One entry of `custom_checks.json`: `check_info.get("enabled", False)`
(modelled with the absent case) and `check_info["email"]`. -/
structure CustomCheck where
  enabled : Option Bool
  email : String
deriving DecidableEq, Repr

/-- ASCII lower-casing of a character, as Python's `str.lower` acts on
the ASCII range (the configured check names are ASCII). -/
def pyCharLower (c : Char) : Char :=
  if 'A' ≤ c && c ≤ 'Z' then Char.ofNat (c.toNat + 32) else c

/-- `check_name.lower()` on ASCII names. -/
def pyLower (s : String) : String := ⟨s.data.map pyCharLower⟩

/-- Python dict assignment `counts[k] = v` on an association list. -/
def setKey (l : List (String × Nat)) (k : String) (v : Nat) :
    List (String × Nat) :=
  match l with
  | [] => [(k, v)]
  | (k0, v0) :: rest =>
    if k0 == k then (k0, v) :: rest else (k0, v0) :: setKey rest k v

/-- The IMAP query string `f'(FROM "{check_info["email"]}")'`. -/
def fromQuery (email : String) : String :=
  "(FROM \"" ++ email ++ "\")"

/-- The `for check_name, check_info in custom_checks.items()` loop:
skips the reserved name `example_check` (case-insensitively), otherwise
runs the query for enabled checks and records the hit count.  `fetchLen`
gives the number of UIDs `fetch_emails` returns for a query.  Returns the
updated counts and the list of executed queries, in execution order. -/
def custom_checks_loop (fetchLen : String → Nat) :
    List (String × CustomCheck) → List (String × Nat) →
    List (String × Nat) × List String
  | [], counts => (counts, [])
  | (name, info) :: rest, counts =>
    if pyLower name == "example_check" then
      custom_checks_loop fetchLen rest counts
    else if info.enabled.getD false then
      let q := fromQuery info.email
      let tailRun :=
        custom_checks_loop fetchLen rest (setKey counts name (fetchLen q))
      (tailRun.1, q :: tailRun.2)
    else
      custom_checks_loop fetchLen rest counts

/-! ## The token extractor (`_extract_csrf`, `kroger_checker_final.py`
lines 141-166)

The four regular expressions used there are star-height-one patterns:
sequences of literals, greedy character classes (`\s+`, `\s*`, `[^>]+`),
one lazy `.*?` (under `re.DOTALL`), and a single capturing class
`([^"]+)`.  The matcher below implements Python's leftmost search with
backtracking for exactly this fragment: greedy items try the longest
consumption first, the lazy item tries the shortest first, and `re.search`
tries start positions left to right. -/

/-- Python's `\s` on the ASCII range: space, tab, newline, carriage
return, vertical tab, form feed. -/
def pySpace (c : Char) : Bool :=
  c == ' ' || c == '\t' || c == '\n' || c == '\r' ||
  c == Char.ofNat 11 || c == Char.ofNat 12

/-- One item of a star-height-one pattern: a literal, a greedy
one-or-more class, a greedy zero-or-more class, the lazy `.*?` (DOTALL),
or the capturing greedy one-or-more class. -/
inductive RItem where
  | lit : List Char → RItem
  | plus : (Char → Bool) → RItem
  | star : (Char → Bool) → RItem
  | lazyAny : RItem
  | cap : (Char → Bool) → RItem

/-- Length of the maximal prefix of `cs` whose characters satisfy `p`. -/
def takeRun (p : Char → Bool) : List Char → Nat
  | [] => 0
  | c :: cs => if p c then takeRun p cs + 1 else 0

/-- Match a pattern against a prefix of the input, with backtracking;
returns the content of the capture group on success.  Candidate
consumptions of greedy items are tried longest first, of the lazy item
shortest first, mirroring Python's backtracking order.  Structural
recursion on the item list. -/
def matchSeq : List RItem → List Char → Option (List Char)
  | [], _ => some []
  | .lit s :: rest, input =>
    if s.isPrefixOf input then matchSeq rest (input.drop s.length) else none
  | .plus p :: rest, input =>
    ((List.range (takeRun p input)).reverse.map (· + 1)).findSome?
      (fun k => matchSeq rest (input.drop k))
  | .star p :: rest, input =>
    ((List.range (takeRun p input + 1)).reverse).findSome?
      (fun k => matchSeq rest (input.drop k))
  | .lazyAny :: rest, input =>
    (List.range (input.length + 1)).findSome?
      (fun k => matchSeq rest (input.drop k))
  | .cap p :: rest, input =>
    ((List.range (takeRun p input)).reverse.map (· + 1)).findSome?
      (fun k => (matchSeq rest (input.drop k)).map (fun _ => input.take k))

/-- `re.search`: try each start position left to right and return the
first match's capture group. -/
def reSearch (items : List RItem) : List Char → Option (List Char)
  | [] => matchSeq items []
  | c :: rest =>
    match matchSeq items (c :: rest) with
    | some t => some t
    | none => reSearch items rest

/-- Literal pattern item from a string. -/
def litS (s : String) : RItem := .lit s.toList

/-- `r'<meta\s+name="csrf-token"\s+content="([^"]+)"'`. -/
def patMeta : List RItem :=
  [litS "<meta", .plus pySpace, litS "name=\"csrf-token\"", .plus pySpace,
   litS "content=\"", .cap (· != '"'), litS "\""]

/-- `r'window\.__PRELOADED_STATE__\s*=\s*\{.*?"csrfToken":"([^"]+)"'`
(compiled with `re.DOTALL`). -/
def patState : List RItem :=
  [litS "window.__PRELOADED_STATE__", .star pySpace, litS "=",
   .star pySpace, litS "\x7b", .lazyAny, litS "\"csrfToken\":\"",
   .cap (· != '"'), litS "\""]

/-- `r'<input[^>]+name="_csrf"[^>]+value="([^"]+)"'`. -/
def patInput : List RItem :=
  [litS "<input", .plus (· != '>'), litS "name=\"_csrf\"",
   .plus (· != '>'), litS "value=\"", .cap (· != '"'), litS "\""]

/-- `r'\"csrfToken\"\s*:\s*\"([^"]+)\"'`. -/
def patJson : List RItem :=
  [litS "\"csrfToken\"", .star pySpace, litS ":", .star pySpace,
   litS "\"", .cap (· != '"'), litS "\""]

/-- The ordered pattern list of `_extract_csrf`. -/
def csrfPatterns : List (List RItem) := [patMeta, patState, patInput, patJson]

/-- The `for pattern in patterns` loop of `_extract_csrf`: return the
first captured value longer than 10 characters, else try the next
pattern. -/
def extract_csrf_go : List (List RItem) → List Char → Option (List Char)
  | [], _ => none
  | pat :: rest, html =>
    match reSearch pat html with
    | some tok => if tok.length > 10 then some tok else extract_csrf_go rest html
    | none => extract_csrf_go rest html

/-- `_extract_csrf` (`kroger_checker_final.py`): ordered pattern matching
with the `len(token) > 10` plausibility filter; `None` when no pattern
yields such a value. -/
def extract_csrf (html : List Char) : Option (List Char) :=
  extract_csrf_go csrfPatterns html

/-! ## Derived observations and concrete scenario environments -/

/-- The cooldown slept after the first attempt of a run, before the
second attempt (read off the run log). -/
def firstCooldown (run : AuthRun) : Option Nat := run.log.head?.map Prod.snd

/-- The collection invariant maintained by `check_single`: the two
collections together hold one record per processed pair, every record in
`valid_creds` has `valid=true` and every record in `invalid_creds` has
`valid=false`. -/
def ResultInv (st : CheckerState) (n : Nat) : Prop :=
  st.validCreds.length + st.invalidCreds.length = n ∧
  (∀ r ∈ st.validCreds, r.valid = true) ∧
  (∀ r ∈ st.invalidCreds, r.valid = false)

/-- Browser-variant collection invariant. -/
def BResultInv (st : BState) (n : Nat) : Prop :=
  st.validCreds.length + st.invalidCreds.length = n ∧
  (∀ r ∈ st.validCreds, r.valid = true) ∧
  (∀ r ∈ st.invalidCreds, r.valid = false)

/-- Scenario: every attempt raises a request exception and every proxy
acquisition returns no proxy. -/
def envAllTransientRotFail : AuthEnv := ⟨fun _ => .raiseReq, fun _ _ => .acqNone⟩

/-- Scenario: every attempt is rate limited (403 response) and every
proxy acquisition returns no proxy. -/
def envRLRotFail : AuthEnv :=
  ⟨fun _ => .resp 403 (.fields none), fun _ _ => .acqNone⟩

/-- Scenario: every attempt yields a well-formed 200 response whose
`token` field is absent (a clean rejection). -/
def envRejected : AuthEnv :=
  ⟨fun _ => .resp 200 (.fields none), fun _ _ => .acqNone⟩

/-- Scenario: first attempt rate limited, second attempt a 500 response;
every proxy acquisition succeeds immediately. -/
def envRLQuick : AuthEnv :=
  ⟨fun i => if i == 0 then .resp 403 (.fields none) else .resp 500 (.fields none),
   fun _ _ => .testResp "p" 200⟩

/-- Scenario: first attempt raises a request exception, second attempt a
500 response; every proxy acquisition succeeds immediately. -/
def envTRQuick : AuthEnv :=
  ⟨fun i => if i == 0 then .raiseReq else .resp 500 (.fields none),
   fun _ _ => .testResp "p" 200⟩

/-- The empty initial checker state built by `__init__`. -/
def initState : CheckerState := ⟨[], [], none⟩

/-- A small custom-check configuration: the reserved name (enabled) and
one enabled ordinary check. -/
def checksEx : List (String × CustomCheck) :=
  [("Example_Check", ⟨some true, "a@b.com"⟩), ("Foo", ⟨some true, "f@g.com"⟩)]

/-- The meta-tag body from the spec's token-extractor test case. -/
def metaExample : List Char :=
  "<meta name=\"csrf-token\" content=\"abcdef0123456789\">".toList

/-! ## Lemmas about proxy rotation -/

/-- The acquisition loop never consumes more iterations than its budget. -/
theorem rotateGo_consumed_le (events : Nat → AcqEvent) :
    ∀ n i p, (rotateGo events i n p).2.2.1 ≤ n := by
  intro n
  induction n with
  | zero => intro i p; simp [rotateGo]
  | succ m ih =>
    intro i p
    cases h : events i with
    | acqRaise => simpa [rotateGo, h] using ih (i + 1) p
    | acqNone => simpa [rotateGo, h] using ih (i + 1) none
    | testRaise pr => simpa [rotateGo, h] using ih (i + 1) (some pr)
    | testResp pr code =>
      by_cases hc : code == 200
      · simp [rotateGo, h, hc]
      · simpa [rotateGo, h, hc] using ih (i + 1) (some pr)

/-- When every acquisition iteration fails, the loop finds no proxy and
consumes its whole budget. -/
theorem rotateGo_allfail (events : Nat → AcqEvent)
    (hf : ∀ j, acqSuccess (events j) = false) :
    ∀ n i p, (rotateGo events i n p).1 = none ∧
      (rotateGo events i n p).2.2.1 = n := by
  intro n
  induction n with
  | zero => intro i p; simp [rotateGo]
  | succ m ih =>
    intro i p
    cases h : events i with
    | acqRaise =>
      obtain ⟨h1, h2⟩ := ih (i + 1) p
      simp [rotateGo, h, h1, h2]
    | acqNone =>
      obtain ⟨h1, h2⟩ := ih (i + 1) none
      simp [rotateGo, h, h1, h2]
    | testRaise pr =>
      obtain ⟨h1, h2⟩ := ih (i + 1) (some pr)
      simp [rotateGo, h, h1, h2]
    | testResp pr code =>
      have hc : (code == 200) = false := by
        have := hf i
        rw [h] at this
        simpa [acqSuccess] using this
      obtain ⟨h1, h2⟩ := ih (i + 1) (some pr)
      simp [rotateGo, h, hc, h1, h2]

/-- C6. For every mode, `_rotate_proxy` consumes at most 5 acquisition
attempts when strict and at most 3 otherwise; if all acquisition
attempts fail it consumes exactly that bound and then signals failure
(`False`) in strict mode, while in non-strict mode it clears the proxy
and signals success (degrades to operating without a proxy).  Being a
total function, it is never fatal to its caller. -/
theorem claim_C6 : ∀ (strict : Bool) (events : Nat → AcqEvent) (p0 : Option String),
    (rotate_proxy strict events p0).attempts ≤ (if strict then 5 else 3) ∧
    ((∀ j, acqSuccess (events j) = false) →
      (rotate_proxy strict events p0).attempts = (if strict then 5 else 3) ∧
      (if strict then (rotate_proxy strict events p0).ok = false
       else (rotate_proxy strict events p0).ok = true ∧
         (rotate_proxy strict events p0).proxy = none)) := by
  intro strict events p0
  constructor
  · have hle := rotateGo_consumed_le events (if strict then 5 else 3) 0 p0
    unfold rotate_proxy
    rcases hr : rotateGo events 0 (if strict then 5 else 3) p0 with ⟨r1, q, c, s⟩
    rw [hr] at hle
    rcases r1 with _ | pr
    · cases strict <;> simp_all
    · cases strict <;> simp_all
  · intro hf
    obtain ⟨h1, h2⟩ := rotateGo_allfail events hf (if strict then 5 else 3) 0 p0
    unfold rotate_proxy
    rcases hr : rotateGo events 0 (if strict then 5 else 3) p0 with ⟨r1, q, c, s⟩
    rw [hr] at h1 h2
    simp only at h1 h2
    subst h1
    cases strict <;> simp_all

/-- Witness for C6 at the concrete all-failing strict scenario. -/
theorem claim_C6_witness :
    (rotate_proxy true (fun _ => AcqEvent.acqNone) none).attempts =
      (if true then 5 else 3) ∧
    (if true then (rotate_proxy true (fun _ => AcqEvent.acqNone) none).ok = false
     else (rotate_proxy true (fun _ => AcqEvent.acqNone) none).ok = true ∧
       (rotate_proxy true (fun _ => AcqEvent.acqNone) none).proxy = none) :=
  (claim_C6 true (fun _ => AcqEvent.acqNone) none).2 (fun _ => rfl)


/-! ## Lemmas about the auth attempt loop -/

/-- A rate-limited status is not 200. -/
theorem isRateLimit_ne200 {s : Nat} (h : isRateLimit s = true) : ¬ s = 200 := by
  unfold isRateLimit at h
  simp only [Bool.or_eq_true, beq_iff_eq] at h
  omega

/-- Step lemma: an unexpected exception ends the loop. -/
theorem authGo_step_raiseOther (u : Bool) (env : AuthEnv) {i : Nat}
    (n r : Nat) (p : Option String) (h : env.events i = .raiseOther) :
    authGo u env i (n + 1) r p = ⟨none, i + 1, [(.raiseOther, 0)], p, r⟩ := by
  simp [authGo, h]

/-- Step lemma: a 200 response returns the parsed token. -/
theorem authGo_step_200 (u : Bool) (env : AuthEnv) {i s : Nat}
    {parse : ParseOutcome} (n r : Nat) (p : Option String)
    (h : env.events i = .resp s parse) (hs : s = 200) :
    authGo u env i (n + 1) r p =
      ⟨parseToken parse, i + 1, [(.resp s parse, 0)], p, r⟩ := by
  simp [authGo, h, hs]

/-- Step lemma: a rate-limited response with a successful rotation
re-enters the loop with no explicit sleep. -/
theorem authGo_step_rl_ok (u : Bool) (env : AuthEnv) {i s : Nat}
    {parse : ParseOutcome} (n r : Nat) (p : Option String)
    (h : env.events i = .resp s parse) (hs : ¬ s = 200)
    (hrl : isRateLimit s = true)
    (hok : (rotate_proxy u (env.rots r) p).ok = true) :
    authGo u env i (n + 1) r p =
      ⟨(authGo u env (i + 1) n (r + 1) (rotate_proxy u (env.rots r) p).proxy).token,
       (authGo u env (i + 1) n (r + 1) (rotate_proxy u (env.rots r) p).proxy).attempts,
       (.resp s parse, (rotate_proxy u (env.rots r) p).slept) ::
         (authGo u env (i + 1) n (r + 1) (rotate_proxy u (env.rots r) p).proxy).log,
       (authGo u env (i + 1) n (r + 1) (rotate_proxy u (env.rots r) p).proxy).proxy,
       (authGo u env (i + 1) n (r + 1) (rotate_proxy u (env.rots r) p).proxy).rotCalls⟩ := by
  rw [show authGo u env i (n + 1) r p = _ from rfl]
  simp only [authGo, h, hs, hrl, hok, if_false, if_true, ite_false, ite_true]
  simp [hs]

/-- Step lemma: a rate-limited response whose rotation fails ends the
loop at once. -/
theorem authGo_step_rl_fail (u : Bool) (env : AuthEnv) {i s : Nat}
    {parse : ParseOutcome} (n r : Nat) (p : Option String)
    (h : env.events i = .resp s parse) (hs : ¬ s = 200)
    (hrl : isRateLimit s = true)
    (hok : (rotate_proxy u (env.rots r) p).ok = false) :
    authGo u env i (n + 1) r p =
      ⟨none, i + 1, [(.resp s parse, (rotate_proxy u (env.rots r) p).slept)],
       (rotate_proxy u (env.rots r) p).proxy, r + 1⟩ := by
  simp only [authGo, h]
  simp [hs, hrl, hok]

/-- Step lemma: any other non-200 response ends the loop. -/
theorem authGo_step_other (u : Bool) (env : AuthEnv) {i s : Nat}
    {parse : ParseOutcome} (n r : Nat) (p : Option String)
    (h : env.events i = .resp s parse) (hs : ¬ s = 200)
    (hrl : isRateLimit s = false) :
    authGo u env i (n + 1) r p =
      ⟨none, i + 1, [(.resp s parse, 0)], p, r⟩ := by
  simp only [authGo, h]
  simp [hs, hrl]

/-- Step lemma: a request exception on the last allowed attempt ends the
loop. -/
theorem authGo_step_req_last (u : Bool) (env : AuthEnv) {i : Nat}
    (r : Nat) (p : Option String) (h : env.events i = .raiseReq) :
    authGo u env i 1 r p = ⟨none, i + 1, [(.raiseReq, 0)], p, r⟩ := by
  simp [authGo, h]

/-- Step lemma: a request exception with retries left and a successful
rotation sleeps two extra seconds and re-enters the loop. -/
theorem authGo_step_req_ok (u : Bool) (env : AuthEnv) {i : Nat}
    (n r : Nat) (p : Option String) (h : env.events i = .raiseReq)
    (hok : (rotate_proxy u (env.rots r) p).ok = true) :
    authGo u env i (n + 2) r p =
      ⟨(authGo u env (i + 1) (n + 1) (r + 1) (rotate_proxy u (env.rots r) p).proxy).token,
       (authGo u env (i + 1) (n + 1) (r + 1) (rotate_proxy u (env.rots r) p).proxy).attempts,
       (.raiseReq, (rotate_proxy u (env.rots r) p).slept + 2) ::
         (authGo u env (i + 1) (n + 1) (r + 1) (rotate_proxy u (env.rots r) p).proxy).log,
       (authGo u env (i + 1) (n + 1) (r + 1) (rotate_proxy u (env.rots r) p).proxy).proxy,
       (authGo u env (i + 1) (n + 1) (r + 1) (rotate_proxy u (env.rots r) p).proxy).rotCalls⟩ := by
  conv_lhs => rw [show (n + 2) = (n + 1) + 1 from rfl]
  simp only [authGo, h]
  simp [hok]

/-- Step lemma: a request exception with retries left whose rotation
fails ends the loop at once. -/
theorem authGo_step_req_fail (u : Bool) (env : AuthEnv) {i : Nat}
    (n r : Nat) (p : Option String) (h : env.events i = .raiseReq)
    (hok : (rotate_proxy u (env.rots r) p).ok = false) :
    authGo u env i (n + 2) r p =
      ⟨none, i + 1, [(.raiseReq, (rotate_proxy u (env.rots r) p).slept)],
       (rotate_proxy u (env.rots r) p).proxy, r + 1⟩ := by
  conv_lhs => rw [show (n + 2) = (n + 1) + 1 from rfl]
  simp only [authGo, h]
  simp [hok]

/-- The attempt loop enters at most as many iterations as its budget. -/
theorem authGo_attempts_le (u : Bool) (env : AuthEnv) :
    ∀ n i r p, (authGo u env i n r p).attempts ≤ i + n := by
  intro n
  induction n with
  | zero => intro i r p; simp [authGo]
  | succ m ih =>
    intro i r p
    cases h : env.events i with
    | raiseOther => rw [authGo_step_raiseOther u env m r p h]; simp
    | raiseReq =>
      cases m with
      | zero => rw [authGo_step_req_last u env r p h]
      | succ m' =>
        cases hok : (rotate_proxy u (env.rots r) p).ok with
        | true =>
          rw [authGo_step_req_ok u env m' r p h hok]
          have := ih (i + 1) (r + 1) (rotate_proxy u (env.rots r) p).proxy
          dsimp only
          omega
        | false =>
          rw [authGo_step_req_fail u env m' r p h hok]
          dsimp only
          omega
    | resp s parse =>
      by_cases hs : s = 200
      · rw [authGo_step_200 u env m r p h hs]; dsimp only; omega
      · cases hrl : isRateLimit s with
        | false =>
          rw [authGo_step_other u env m r p h hs hrl]; dsimp only; omega
        | true =>
          cases hok : (rotate_proxy u (env.rots r) p).ok with
          | true =>
            rw [authGo_step_rl_ok u env m r p h hs hrl hok]
            have := ih (i + 1) (r + 1) (rotate_proxy u (env.rots r) p).proxy
            dsimp only
            omega
          | false =>
            rw [authGo_step_rl_fail u env m r p h hs hrl hok]
            dsimp only
            omega

/-- The token returned by the attempt loop is truthy exactly when some
entered iteration produced a recognized success signal. -/
theorem authGo_success_iff (u : Bool) (env : AuthEnv) :
    ∀ n i r p, tokenTruthy (authGo u env i n r p).token = true ↔
      ∃ k, i ≤ k ∧ k < (authGo u env i n r p).attempts ∧
        successEvent (env.events k) = true := by
  intro n
  induction n with
  | zero =>
    intro i r p
    simp only [authGo, tokenTruthy]
    constructor
    · intro hc; exact absurd hc (by simp)
    · rintro ⟨k, hk1, hk2, -⟩; omega
  | succ m ih =>
    intro i r p
    cases h : env.events i with
    | raiseOther =>
      rw [authGo_step_raiseOther u env m r p h]
      dsimp only [tokenTruthy]
      constructor
      · intro hc; exact absurd hc (by simp)
      · rintro ⟨k, hk1, hk2, hk3⟩
        have hki : k = i := by omega
        subst hki
        rw [h] at hk3
        simp [successEvent] at hk3
    | raiseReq =>
      cases m with
      | zero =>
        rw [authGo_step_req_last u env r p h]
        dsimp only [tokenTruthy]
        constructor
        · intro hc; exact absurd hc (by simp)
        · rintro ⟨k, hk1, hk2, hk3⟩
          have hki : k = i := by omega
          subst hki
          rw [h] at hk3
          simp [successEvent] at hk3
      | succ m' =>
        cases hok : (rotate_proxy u (env.rots r) p).ok with
        | true =>
          rw [authGo_step_req_ok u env m' r p h hok]
          dsimp only
          rw [ih (i + 1) (r + 1) (rotate_proxy u (env.rots r) p).proxy]
          constructor
          · rintro ⟨k, hk1, hk2, hk3⟩; exact ⟨k, by omega, hk2, hk3⟩
          · rintro ⟨k, hk1, hk2, hk3⟩
            rcases Nat.eq_or_lt_of_le hk1 with hki | hki
            · rw [← hki, h] at hk3
              simp [successEvent] at hk3
            · exact ⟨k, by omega, hk2, hk3⟩
        | false =>
          rw [authGo_step_req_fail u env m' r p h hok]
          dsimp only [tokenTruthy]
          constructor
          · intro hc; exact absurd hc (by simp)
          · rintro ⟨k, hk1, hk2, hk3⟩
            have hki : k = i := by omega
            subst hki
            rw [h] at hk3
            simp [successEvent] at hk3
    | resp s parse =>
      by_cases hs : s = 200
      · rw [authGo_step_200 u env m r p h hs]
        dsimp only
        constructor
        · intro hc
          refine ⟨i, le_refl i, by omega, ?_⟩
          rw [h, hs]
          simpa [successEvent] using hc
        · rintro ⟨k, hk1, hk2, hk3⟩
          have hki : k = i := by omega
          subst hki
          rw [h, hs] at hk3
          simpa [successEvent] using hk3
      · cases hrl : isRateLimit s with
        | false =>
          rw [authGo_step_other u env m r p h hs hrl]
          dsimp only [tokenTruthy]
          constructor
          · intro hc; exact absurd hc (by simp)
          · rintro ⟨k, hk1, hk2, hk3⟩
            have hki : k = i := by omega
            subst hki
            rw [h] at hk3
            simp [successEvent, hs] at hk3
        | true =>
          cases hok : (rotate_proxy u (env.rots r) p).ok with
          | true =>
            rw [authGo_step_rl_ok u env m r p h hs hrl hok]
            dsimp only
            rw [ih (i + 1) (r + 1) (rotate_proxy u (env.rots r) p).proxy]
            constructor
            · rintro ⟨k, hk1, hk2, hk3⟩; exact ⟨k, by omega, hk2, hk3⟩
            · rintro ⟨k, hk1, hk2, hk3⟩
              rcases Nat.eq_or_lt_of_le hk1 with hki | hki
              · rw [← hki, h] at hk3
                simp [successEvent, hs] at hk3
              · exact ⟨k, by omega, hk2, hk3⟩
          | false =>
            rw [authGo_step_rl_fail u env m r p h hs hrl hok]
            dsimp only [tokenTruthy]
            constructor
            · intro hc; exact absurd hc (by simp)
            · rintro ⟨k, hk1, hk2, hk3⟩
              have hki : k = i := by omega
              subst hki
              rw [h] at hk3
              simp [successEvent, hs] at hk3

/-- A clean rejection at the first attempt of a loop entry ends the loop
at that attempt with an untruthy token. -/
theorem authGo_rejected_first (u : Bool) (env : AuthEnv) :
    ∀ n i r p, rejectedEvent (env.events i) = true →
      (authGo u env i (n + 1) r p).attempts = i + 1 ∧
      tokenTruthy (authGo u env i (n + 1) r p).token = false := by
  intro n i r p hrej
  cases h : env.events i with
  | raiseReq => rw [h] at hrej; simp [rejectedEvent] at hrej
  | raiseOther => rw [h] at hrej; simp [rejectedEvent] at hrej
  | resp s parse =>
    rw [h] at hrej
    cases parse with
    | decodeError => simp [rejectedEvent] at hrej
    | attrError => simp [rejectedEvent] at hrej
    | fields t =>
      simp only [rejectedEvent, Bool.and_eq_true, beq_iff_eq,
        Bool.not_eq_true'] at hrej
      obtain ⟨hs, ht⟩ := hrej
      rw [authGo_step_200 u env n r p h hs]
      exact ⟨rfl, by simpa [parseToken] using ht⟩

/-- No iteration is entered after a clean rejection: whenever an entered
iteration `k` saw a rejection, the loop stopped right there. -/
theorem authGo_rejected_terminal (u : Bool) (env : AuthEnv) :
    ∀ n i r p k, i ≤ k → k < (authGo u env i n r p).attempts →
      rejectedEvent (env.events k) = true →
      (authGo u env i n r p).attempts = k + 1 := by
  intro n
  induction n with
  | zero =>
    intro i r p k hik hk _
    simp only [authGo] at hk
    omega
  | succ m ih =>
    intro i r p k hik hk hrej
    cases h : env.events i with
    | raiseOther =>
      rw [authGo_step_raiseOther u env m r p h] at hk ⊢
      dsimp only at hk ⊢
      omega
    | raiseReq =>
      cases m with
      | zero =>
        rw [authGo_step_req_last u env r p h] at hk ⊢
        dsimp only at hk ⊢
        omega
      | succ m' =>
        cases hok : (rotate_proxy u (env.rots r) p).ok with
        | true =>
          rw [authGo_step_req_ok u env m' r p h hok] at hk ⊢
          dsimp only at hk ⊢
          rcases Nat.eq_or_lt_of_le hik with hki | hki
          · rw [← hki, h] at hrej
            simp [rejectedEvent] at hrej
          · exact ih (i + 1) (r + 1) (rotate_proxy u (env.rots r) p).proxy k
              (by omega) hk hrej
        | false =>
          rw [authGo_step_req_fail u env m' r p h hok] at hk ⊢
          dsimp only at hk ⊢
          omega
    | resp s parse =>
      by_cases hs : s = 200
      · rw [authGo_step_200 u env m r p h hs] at hk ⊢
        dsimp only at hk ⊢
        omega
      · cases hrl : isRateLimit s with
        | false =>
          rw [authGo_step_other u env m r p h hs hrl] at hk ⊢
          dsimp only at hk ⊢
          omega
        | true =>
          cases hok : (rotate_proxy u (env.rots r) p).ok with
          | true =>
            rw [authGo_step_rl_ok u env m r p h hs hrl hok] at hk ⊢
            dsimp only at hk ⊢
            rcases Nat.eq_or_lt_of_le hik with hki | hki
            · rw [← hki, h] at hrej
              cases parse <;> simp [rejectedEvent, hs] at hrej
            · exact ih (i + 1) (r + 1) (rotate_proxy u (env.rots r) p).proxy k
                (by omega) hk hrej
          | false =>
            rw [authGo_step_rl_fail u env m r p h hs hrl hok] at hk ⊢
            dsimp only at hk ⊢
            omega

/-- When every attempt is transient and every rotation call succeeds, the
loop consumes its whole budget and returns `None`. -/
theorem authGo_transient_exhaust (u : Bool) (env : AuthEnv)
    (h1 : ∀ i, transientEvent (env.events i) = true)
    (h2 : ∀ r p, (rotate_proxy u (env.rots r) p).ok = true) :
    ∀ n i r p, (authGo u env i (n + 1) r p).attempts = i + (n + 1) ∧
      tokenTruthy (authGo u env i (n + 1) r p).token = false := by
  intro n
  induction n with
  | zero =>
    intro i r p
    have h : env.events i = .raiseReq := by
      have := h1 i
      cases he : env.events i <;> rw [he] at this <;>
        simp [transientEvent] at this ⊢
    rw [authGo_step_req_last u env r p h]
    exact ⟨rfl, rfl⟩
  | succ m ih =>
    intro i r p
    have h : env.events i = .raiseReq := by
      have := h1 i
      cases he : env.events i <;> rw [he] at this <;>
        simp [transientEvent] at this ⊢
    rw [authGo_step_req_ok u env m r p h (h2 r p)]
    obtain ⟨ha, ht⟩ := ih (i + 1) (r + 1) (rotate_proxy u (env.rots r) p).proxy
    dsimp only
    exact ⟨by omega, ht⟩

/-- In strict mode, total acquisition failure makes `_rotate_proxy`
return `False`. -/
theorem rotate_proxy_strict_allfail (events : Nat → AcqEvent)
    (p0 : Option String) (hf : ∀ j, acqSuccess (events j) = false) :
    (rotate_proxy true events p0).ok = false := by
  obtain ⟨h1, h2⟩ := rotateGo_allfail events hf 5 0 p0
  unfold rotate_proxy
  rcases hr : rotateGo events 0 (if true then 5 else 3) p0 with ⟨r1, q, c, s⟩
  rw [if_pos rfl] at hr
  rw [hr] at h1
  simp only at h1
  subst h1
  simp [hr]

/-- C2. `check_credentials` returns true exactly when some entered
attempt produced a recognized success signal (an HTTP 200 whose body
yields a truthy `token`); in particular a well-formed 200 whose token is
absent, null or empty yields false. -/
theorem claim_C2 : (∀ (u : Bool) (env : AuthEnv) (p0 : Option String),
      check_credentials u env p0 = true ↔
        ∃ k, k < (get_auth_token u env p0).attempts ∧
          successEvent (env.events k) = true) ∧
    (∀ (u : Bool) (env : AuthEnv) (p0 : Option String),
      rejectedEvent (env.events 0) = true →
      check_credentials u env p0 = false) := by
  constructor
  · intro u env p0
    have h := authGo_success_iff u env 2 0 0 p0
    constructor
    · intro hc
      obtain ⟨k, -, hk2, hk3⟩ := h.mp hc
      exact ⟨k, hk2, hk3⟩
    · rintro ⟨k, hk2, hk3⟩
      exact h.mpr ⟨k, Nat.zero_le k, hk2, hk3⟩
  · intro u env p0 hrej
    exact (authGo_rejected_first u env 1 0 0 p0 hrej).2

/-- Witness for C2: a 200 response with an absent token field is
classified invalid. -/
theorem claim_C2_witness : check_credentials true envRejected none = false :=
  claim_C2.2 true envRejected none (by decide)

/-- C3. A clean rejection (well-formed 200 lacking the success
indicator) is terminal: if the first attempt is rejected the result has
exactly one attempt and `valid=false`, and in general no attempt is ever
entered after a rejected one. -/
theorem claim_C3 : (∀ (u : Bool) (env : AuthEnv) (p0 : Option String),
      rejectedEvent (env.events 0) = true →
      (get_auth_token u env p0).attempts = 1 ∧
      check_credentials u env p0 = false) ∧
    (∀ (u : Bool) (env : AuthEnv) (p0 : Option String) (k : Nat),
      k < (get_auth_token u env p0).attempts →
      rejectedEvent (env.events k) = true →
      (get_auth_token u env p0).attempts = k + 1) := by
  constructor
  · intro u env p0 hrej
    obtain ⟨h1, h2⟩ := authGo_rejected_first u env 1 0 0 p0 hrej
    exact ⟨h1, h2⟩
  · intro u env p0 k hk hrej
    exact authGo_rejected_terminal u env 2 0 0 p0 k (Nat.zero_le k) hk hrej

/-- Witness for C3 at the concrete always-rejected scenario. -/
theorem claim_C3_witness :
    (get_auth_token true envRejected none).attempts = 1 ∧
    check_credentials true envRejected none = false :=
  claim_C3.1 true envRejected none (by decide)

/-- C4. When every attempt is rate limited (403/429), proxy use is on
(strict rotation) and every proxy acquisition fails, the pair ends
invalid after exactly one attempt: the loop aborts on the first failed
rotation and never reaches the retry bound of 2. -/
theorem claim_C4 : ∀ (env : AuthEnv) (p0 : Option String),
    (∀ i, rateLimitedEvent (env.events i) = true) →
    (∀ r j, acqSuccess (env.rots r j) = false) →
    check_credentials true env p0 = false ∧
    (get_auth_token true env p0).attempts = 1 := by
  intro env p0 h1 h2
  have h0 := h1 0
  cases h : env.events 0 with
  | raiseReq => rw [h] at h0; simp [rateLimitedEvent] at h0
  | raiseOther => rw [h] at h0; simp [rateLimitedEvent] at h0
  | resp s parse =>
    rw [h] at h0
    have hrl : isRateLimit s = true := by simpa [rateLimitedEvent] using h0
    have hs := isRateLimit_ne200 hrl
    have hok : (rotate_proxy true (env.rots 0) p0).ok = false :=
      rotate_proxy_strict_allfail _ _ (h2 0)
    have e := authGo_step_rl_fail true env 1 0 p0 h hs hrl hok
    constructor
    · show tokenTruthy (authGo true env 0 (1 + 1) 0 p0).token = false
      rw [e]
      rfl
    · show (authGo true env 0 (1 + 1) 0 p0).attempts = 1
      rw [e]

/-- Witness for C4 at the concrete all-rate-limited, all-fail scenario. -/
theorem claim_C4_witness :
    check_credentials true envRLRotFail none = false ∧
    (get_auth_token true envRLRotFail none).attempts = 1 :=
  claim_C4 envRLRotFail none (fun _ => rfl) (fun _ _ => rfl)

/-- C5 counterexample: with only transient outcomes but a failing strict
rotation, the run stops after one attempt, not after the bound of 2. -/
theorem claim_C5_counterexample :
    transientEvent (envAllTransientRotFail.events 0) = true ∧
    check_credentials true envAllTransientRotFail none = false ∧
    (get_auth_token true envAllTransientRotFail none).attempts = 1 ∧
    ¬ (get_auth_token true envAllTransientRotFail none).attempts = 2 := by
  decide

/-- C5 (amended). When every attempt yields only transient outcomes and
no rotation call signals failure (in particular whenever proxy use is
off), the result is invalid with exactly `maxAttempts = 2` attempts; in
every run the attempt count never exceeds 2. -/
theorem claim_C5_amended : (∀ (u : Bool) (env : AuthEnv) (p0 : Option String),
      (∀ i, transientEvent (env.events i) = true) →
      (∀ r p, (rotate_proxy u (env.rots r) p).ok = true) →
      check_credentials u env p0 = false ∧
      (get_auth_token u env p0).attempts = 2) ∧
    (∀ (u : Bool) (env : AuthEnv) (p0 : Option String),
      (get_auth_token u env p0).attempts ≤ 2) := by
  constructor
  · intro u env p0 h1 h2
    obtain ⟨ha, ht⟩ := authGo_transient_exhaust u env h1 h2 1 0 0 p0
    exact ⟨ht, ha⟩
  · intro u env p0
    simpa using authGo_attempts_le u env 2 0 0 p0

/-- Witness for the amended C5 with proxy use off. -/
theorem claim_C5_witness :
    check_credentials false envAllTransientRotFail none = false ∧
    (get_auth_token false envAllTransientRotFail none).attempts = 2 :=
  claim_C5_amended.1 false envAllTransientRotFail none (fun _ => rfl)
    (fun _ _ => rfl)

/-- C8 counterexample: after a rate-limited outcome with an immediately
successful rotation the loop re-enters with cooldown 0, while after a
transient failure it sleeps 2; the rate-limited cooldown is not longer. -/
theorem claim_C8_counterexample :
    rateLimitedEvent (envRLQuick.events 0) = true ∧
    transientEvent (envTRQuick.events 0) = true ∧
    firstCooldown (get_auth_token true envRLQuick none) = some 0 ∧
    firstCooldown (get_auth_token true envTRQuick none) = some 2 ∧
    ¬ ((0 : Nat) > 2) := by
  decide

/-- C8 (amended). On a rate-limited outcome with successful rotation the
coordinator re-enters the loop immediately after rotating, applying a
cooldown strictly SHORTER (by the 2-second transient sleep) than the
cooldown after a generic transient failure under the same rotation
behavior. -/
theorem claim_C8_amended : ∀ (u : Bool) (envA envB : AuthEnv) (p0 : Option String),
    rateLimitedEvent (envA.events 0) = true →
    envB.events 0 = .raiseReq →
    envA.rots 0 = envB.rots 0 →
    (rotate_proxy u (envA.rots 0) p0).ok = true →
    ∃ cA cB, firstCooldown (get_auth_token u envA p0) = some cA ∧
      firstCooldown (get_auth_token u envB p0) = some cB ∧ cA < cB := by
  intro u envA envB p0 hA hB hrot hok
  cases h : envA.events 0 with
  | raiseReq => rw [h] at hA; simp [rateLimitedEvent] at hA
  | raiseOther => rw [h] at hA; simp [rateLimitedEvent] at hA
  | resp s parse =>
    rw [h] at hA
    have hrl : isRateLimit s = true := by simpa [rateLimitedEvent] using hA
    have hs := isRateLimit_ne200 hrl
    have hokB : (rotate_proxy u (envB.rots 0) p0).ok = true := by
      rw [← hrot]; exact hok
    refine ⟨(rotate_proxy u (envA.rots 0) p0).slept,
      (rotate_proxy u (envB.rots 0) p0).slept + 2, ?_, ?_, ?_⟩
    · have e := authGo_step_rl_ok u envA 1 0 p0 h hs hrl hok
      show firstCooldown (authGo u envA 0 (1 + 1) 0 p0) =
        some (rotate_proxy u (envA.rots 0) p0).slept
      rw [e]
      rfl
    · have e := authGo_step_req_ok u envB 0 0 p0 hB hokB
      show firstCooldown (authGo u envB 0 (0 + 2) 0 p0) =
        some ((rotate_proxy u (envB.rots 0) p0).slept + 2)
      rw [e]
      rfl
    · rw [hrot]
      omega

/-- Witness for the amended C8 at the concrete quick-rotation scenarios. -/
theorem claim_C8_witness : ∃ cA cB,
    firstCooldown (get_auth_token true envRLQuick none) = some cA ∧
    firstCooldown (get_auth_token true envTRQuick none) = some cB ∧ cA < cB :=
  claim_C8_amended true envRLQuick envTRQuick none (by decide) rfl rfl (by decide)

/-! ## Lemmas about the checker state and batch loop -/

/-- The result record built by `check_single` carries the submitted
email and password. -/
theorem check_single_fst (u : Bool) (env : AuthEnv) (st : CheckerState)
    (e pw : String) : (check_single u env st e pw).1.email = e ∧
      (check_single u env st e pw).1.password = pw := by
  simp only [check_single]
  split <;> simp

/-- Appending a valid record to `valid_creds` preserves the collection
invariant and puts the record in exactly that collection. -/
theorem resultInv_append_valid (st : CheckerState) (n : Nat) (r : Result)
    (q : Option String) (h : ResultInv st n) (hr : r.valid = true) :
    ResultInv ⟨st.validCreds ++ [r], st.invalidCreds, q⟩ (n + 1) ∧
    r ∈ st.validCreds ++ [r] ∧ r ∉ st.invalidCreds := by
  obtain ⟨hlen, hval, hinv⟩ := h
  refine ⟨⟨by simp; omega, ?_, ?_⟩, ?_, ?_⟩
  · intro x hx
    rcases List.mem_append.mp hx with hx | hx
    · exact hval x hx
    · rw [List.mem_singleton.mp hx]; exact hr
  · exact hinv
  · exact List.mem_append_right _ (List.mem_singleton.mpr rfl)
  · intro hmem
    have hc := hinv r hmem
    rw [hr] at hc
    simp at hc

/-- Appending an invalid record to `invalid_creds` preserves the
collection invariant and puts the record in exactly that collection. -/
theorem resultInv_append_invalid (st : CheckerState) (n : Nat) (r : Result)
    (q : Option String) (h : ResultInv st n) (hr : r.valid = false) :
    ResultInv ⟨st.validCreds, st.invalidCreds ++ [r], q⟩ (n + 1) ∧
    r ∈ st.invalidCreds ++ [r] ∧ r ∉ st.validCreds := by
  obtain ⟨hlen, hval, hinv⟩ := h
  refine ⟨⟨by simp; omega, ?_, ?_⟩, ?_, ?_⟩
  · exact hval
  · intro x hx
    rcases List.mem_append.mp hx with hx | hx
    · exact hinv x hx
    · rw [List.mem_singleton.mp hx]; exact hr
  · exact List.mem_append_right _ (List.mem_singleton.mpr rfl)
  · intro hmem
    have hc := hval r hmem
    rw [hr] at hc
    simp at hc

/-- One `check_single` call preserves the collection invariant and
appends its record to exactly one of the two collections. -/
theorem check_single_inv (u : Bool) (env : AuthEnv) (st : CheckerState)
    (e pw : String) (n : Nat) (h : ResultInv st n) :
    ResultInv (check_single u env st e pw).2 (n + 1) ∧
    (((check_single u env st e pw).1 ∈ (check_single u env st e pw).2.validCreds ∧
      (check_single u env st e pw).1 ∉ (check_single u env st e pw).2.invalidCreds) ∨
     ((check_single u env st e pw).1 ∈ (check_single u env st e pw).2.invalidCreds ∧
      (check_single u env st e pw).1 ∉ (check_single u env st e pw).2.validCreds)) := by
  simp only [check_single]
  split
  · next hv =>
    dsimp only
    have key := resultInv_append_valid st n
      ⟨e, pw, tokenTruthy (get_auth_token u env st.proxy).token,
       (get_auth_token u env st.proxy).proxy⟩
      (get_auth_token u env st.proxy).proxy h hv
    exact ⟨key.1, Or.inl ⟨key.2.1, key.2.2⟩⟩
  · next hv =>
    dsimp only
    have key := resultInv_append_invalid st n
      ⟨e, pw, tokenTruthy (get_auth_token u env st.proxy).token,
       (get_auth_token u env st.proxy).proxy⟩
      (get_auth_token u env st.proxy).proxy h (by simpa using hv)
    exact ⟨key.1, Or.inr ⟨key.2.1, key.2.2⟩⟩

/-- The whole batch loop preserves the collection invariant, adding one
record per processed pair. -/
theorem check_bulk_go_inv (u : Bool) (benv : BulkEnv) :
    ∀ (creds : List Cred) (k : Nat) (st : CheckerState) (n : Nat),
      ResultInv st n →
      ResultInv (check_bulk_go u benv k st creds).2 (n + creds.length) := by
  intro creds
  induction creds with
  | nil => intro k st n h; simpa [check_bulk_go] using h
  | cons c rest ih =>
    intro k st n h
    have h1 := (check_single_inv u (benv.auth k) st c.email c.password n h).1
    have h2 : ResultInv
        (if u && benv.interRotate k then
          (⟨(check_single u (benv.auth k) st c.email c.password).2.validCreds,
            (check_single u (benv.auth k) st c.email c.password).2.invalidCreds,
            (rotate_proxy true (benv.interRotEvents k)
              (check_single u (benv.auth k) st c.email c.password).2.proxy).proxy⟩ :
            CheckerState)
        else (check_single u (benv.auth k) st c.email c.password).2) (n + 1) := by
      split
      · exact ⟨h1.1, h1.2.1, h1.2.2⟩
      · exact h1
    have h3 := ih (k + 1) _ (n + 1) h2
    have he : n + (c :: rest).length = (n + 1) + rest.length := by
      simp
      omega
    rw [he]
    exact h3

/-- Records in the valid and invalid collections never coincide. -/
theorem resultInv_disjoint (st : CheckerState) (n : Nat) (h : ResultInv st n) :
    ∀ x ∈ st.validCreds, x ∉ st.invalidCreds := by
  intro x hx hmem
  have h1 := h.2.1 x hx
  have h2 := h.2.2 x hmem
  rw [h1] at h2
  simp at h2

/-- Browser-variant `check_single` preserves the collection invariant
and appends its record to exactly one collection. -/
theorem bcheck_single_inv (b : Bool) (st : BState) (e pw : String) (n : Nat)
    (h : BResultInv st n) :
    BResultInv (bcheck_single b st e pw).2 (n + 1) ∧
    (((bcheck_single b st e pw).1 ∈ (bcheck_single b st e pw).2.validCreds ∧
      (bcheck_single b st e pw).1 ∉ (bcheck_single b st e pw).2.invalidCreds) ∨
     ((bcheck_single b st e pw).1 ∈ (bcheck_single b st e pw).2.invalidCreds ∧
      (bcheck_single b st e pw).1 ∉ (bcheck_single b st e pw).2.validCreds)) := by
  obtain ⟨hlen, hval, hinv⟩ := h
  simp only [bcheck_single]
  split
  · next hv =>
    dsimp only
    refine ⟨⟨by simp; omega, ?_, ?_⟩, Or.inl ⟨?_, ?_⟩⟩
    · intro x hx
      rcases List.mem_append.mp hx with hx | hx
      · exact hval x hx
      · rw [List.mem_singleton.mp hx]; exact hv
    · exact hinv
    · exact List.mem_append_right _ (List.mem_singleton.mpr rfl)
    · intro hmem
      have hc := hinv _ hmem
      simp [hv] at hc
  · next hv =>
    dsimp only
    have hb : b = false := by simpa using hv
    refine ⟨⟨by simp; omega, ?_, ?_⟩, Or.inr ⟨?_, ?_⟩⟩
    · exact hval
    · intro x hx
      rcases List.mem_append.mp hx with hx | hx
      · exact hinv x hx
      · rw [List.mem_singleton.mp hx]; exact hb
    · exact List.mem_append_right _ (List.mem_singleton.mpr rfl)
    · intro hmem
      have hc := hval _ hmem
      simp [hb] at hc

/-- The batch loop yields one result per credential, in input order. -/
theorem check_bulk_go_shape (u : Bool) (benv : BulkEnv) :
    ∀ (creds : List Cred) (k : Nat) (st : CheckerState),
    ((check_bulk_go u benv k st creds).1).length = creds.length ∧
    ∀ i : Nat, ((check_bulk_go u benv k st creds).1[i]?).map
        (fun r => (r.email, r.password)) =
      (creds[i]?).map (fun c => (c.email, c.password)) := by
  intro creds
  induction creds with
  | nil => intro k st; simp [check_bulk_go]
  | cons c rest ih =>
    intro k st
    simp only [check_bulk_go]
    constructor
    · simpa using (ih (k + 1) _).1
    · intro i
      cases i with
      | zero =>
        have hf := check_single_fst u (benv.auth k) st c.email c.password
        simp [hf.1, hf.2]
      | succ j =>
        simpa using (ih (k + 1) _).2 j

/-- C1. `check_bulk` returns exactly one result record per input
credential pair, in input order (each carrying that pair's email and
password); being a total function of its environment, no per-pair
failure escapes as an exception — failed pairs are still reported. -/
theorem claim_C1 : ∀ (u : Bool) (benv : BulkEnv) (st : CheckerState)
    (creds : List Cred),
    ((check_bulk u benv st creds).1).length = creds.length ∧
    ∀ i : Nat, ((check_bulk u benv st creds).1[i]?).map
        (fun r => (r.email, r.password)) =
      (creds[i]?).map (fun c => (c.email, c.password)) := by
  intro u benv st creds
  exact check_bulk_go_shape u benv creds 0 st

/-- C10. Every `check_single` call (strict-proxy and browser variants)
appends its result to exactly one of the two collections according to
its valid flag, so the collections stay flag-pure and disjoint and their
sizes sum to the number of processed pairs; the invariant holds at the
initial state and is preserved across whole batches. -/
theorem claim_C10 :
    (∀ (u : Bool) (env : AuthEnv) (st : CheckerState) (e pw : String) (n : Nat),
      ResultInv st n →
      ResultInv (check_single u env st e pw).2 (n + 1) ∧
      (((check_single u env st e pw).1 ∈ (check_single u env st e pw).2.validCreds ∧
        (check_single u env st e pw).1 ∉ (check_single u env st e pw).2.invalidCreds) ∨
       ((check_single u env st e pw).1 ∈ (check_single u env st e pw).2.invalidCreds ∧
        (check_single u env st e pw).1 ∉ (check_single u env st e pw).2.validCreds))) ∧
    (∀ (b : Bool) (st : BState) (e pw : String) (n : Nat),
      BResultInv st n →
      BResultInv (bcheck_single b st e pw).2 (n + 1) ∧
      (((bcheck_single b st e pw).1 ∈ (bcheck_single b st e pw).2.validCreds ∧
        (bcheck_single b st e pw).1 ∉ (bcheck_single b st e pw).2.invalidCreds) ∨
       ((bcheck_single b st e pw).1 ∈ (bcheck_single b st e pw).2.invalidCreds ∧
        (bcheck_single b st e pw).1 ∉ (bcheck_single b st e pw).2.validCreds))) ∧
    (∀ (u : Bool) (benv : BulkEnv) (st : CheckerState) (creds : List Cred) (n : Nat),
      ResultInv st n →
      ResultInv (check_bulk u benv st creds).2 (n + creds.length)) ∧
    (∀ (st : CheckerState) (n : Nat), ResultInv st n →
      ∀ x ∈ st.validCreds, x ∉ st.invalidCreds) ∧
    ResultInv initState 0 := by
  refine ⟨check_single_inv, bcheck_single_inv, ?_, resultInv_disjoint, ?_⟩
  · intro u benv st creds n h
    exact check_bulk_go_inv u benv creds 0 st n h
  · exact ⟨rfl, fun r hr => absurd hr (List.not_mem_nil r),
      fun r hr => absurd hr (List.not_mem_nil r)⟩

/-- Witness for C10: one concrete `check_single` call from the initial
state lands its record in exactly one collection. -/
theorem claim_C10_witness :
    ResultInv (check_single true envRejected initState "a@x.com" "p1").2 (0 + 1) ∧
    (((check_single true envRejected initState "a@x.com" "p1").1 ∈
        (check_single true envRejected initState "a@x.com" "p1").2.validCreds ∧
      (check_single true envRejected initState "a@x.com" "p1").1 ∉
        (check_single true envRejected initState "a@x.com" "p1").2.invalidCreds) ∨
     ((check_single true envRejected initState "a@x.com" "p1").1 ∈
        (check_single true envRejected initState "a@x.com" "p1").2.invalidCreds ∧
      (check_single true envRejected initState "a@x.com" "p1").1 ∉
        (check_single true envRejected initState "a@x.com" "p1").2.validCreds)) :=
  claim_C10.1 true envRejected initState "a@x.com" "p1" 0 claim_C10.2.2.2.2

/-! ## Lemmas about the custom-check loop -/

/-- Dict assignment only adds entries under the assigned key. -/
theorem setKey_mem : ∀ (l : List (String × Nat)) (key : String) (v w : Nat)
    (k : String), (k, w) ∈ setKey l key v → (k, w) ∈ l ∨ k = key := by
  intro l key v
  induction l with
  | nil =>
    intro w k h
    simp [setKey] at h
    right
    exact h.1
  | cons c rest ih =>
    intro w k h
    rcases c with ⟨k0, v0⟩
    by_cases heq : (k0 == key) = true
    · simp only [setKey, heq, if_true] at h
      rcases List.mem_cons.mp h with h | h
      · right
        have hk : k = k0 := by
          have := Prod.mk.injEq .. ▸ h
          simp at h
          exact h.1
        rw [hk]
        exact (beq_iff_eq ..).mp heq
      · left
        exact List.mem_cons_of_mem _ h
    · simp only [setKey, heq, Bool.false_eq_true, if_false] at h
      rcases List.mem_cons.mp h with h | h
      · left
        rw [h]
        exact List.mem_cons_self _ _
      · rcases ih w k h with h2 | h2
        · left; exact List.mem_cons_of_mem _ h2
        · right; exact h2

/-- Skipping the reserved name is the same as deleting its entries from
the configuration before running the loop. -/
theorem custom_checks_loop_skip_reserved (fetchLen : String → Nat) :
    ∀ (checks : List (String × CustomCheck)) (counts : List (String × Nat)),
    custom_checks_loop fetchLen checks counts =
      custom_checks_loop fetchLen
        (checks.filter (fun c => !(pyLower c.1 == "example_check"))) counts := by
  intro checks
  induction checks with
  | nil => intro counts; simp
  | cons c rest ih =>
    intro counts
    rcases c with ⟨name, info⟩
    by_cases hres : (pyLower name == "example_check") = true
    · simp only [custom_checks_loop, hres, if_true, List.filter_cons,
        Bool.not_true, Bool.false_eq_true, if_false]
      exact ih counts
    · have hres' : (pyLower name == "example_check") = false := by
        simpa using hres
      by_cases henb : (info.enabled.getD false) = true
      · simp only [custom_checks_loop, hres', henb, if_true,
          Bool.false_eq_true, if_false, List.filter_cons, Bool.not_false]
        rw [ih]
      · have henb' : (info.enabled.getD false) = false := by simpa using henb
        simp only [custom_checks_loop, hres', henb', if_true,
          Bool.false_eq_true, if_false, List.filter_cons, Bool.not_false]
        exact ih counts

/-- The executed queries are exactly those of the enabled, non-reserved
entries, in configuration order. -/
theorem custom_checks_loop_queries (fetchLen : String → Nat) :
    ∀ (checks : List (String × CustomCheck)) (counts : List (String × Nat)),
    (custom_checks_loop fetchLen checks counts).2 =
      (checks.filter (fun c => !(pyLower c.1 == "example_check") &&
        c.2.enabled.getD false)).map (fun c => fromQuery c.2.email) := by
  intro checks
  induction checks with
  | nil => intro counts; simp [custom_checks_loop]
  | cons c rest ih =>
    intro counts
    rcases c with ⟨name, info⟩
    by_cases hres : (pyLower name == "example_check") = true
    · simp [custom_checks_loop, hres, ih]
    · have hres' : (pyLower name == "example_check") = false := by
        simpa using hres
      by_cases henb : (info.enabled.getD false) = true
      · simp [custom_checks_loop, hres', henb, ih]
      · have henb' : (info.enabled.getD false) = false := by simpa using henb
        simp [custom_checks_loop, hres', henb', ih]

/-- Every entry of the final counts either was already present or is
keyed by a non-reserved name. -/
theorem custom_checks_loop_counts_mem (fetchLen : String → Nat) :
    ∀ (checks : List (String × CustomCheck)) (counts : List (String × Nat))
      (k : String) (v : Nat),
      (k, v) ∈ (custom_checks_loop fetchLen checks counts).1 →
      (k, v) ∈ counts ∨ ¬ pyLower k = "example_check" := by
  intro checks
  induction checks with
  | nil =>
    intro counts k v h
    left
    simpa [custom_checks_loop] using h
  | cons c rest ih =>
    intro counts k v h
    rcases c with ⟨name, info⟩
    by_cases hres : (pyLower name == "example_check") = true
    · simp only [custom_checks_loop, hres, if_true] at h
      exact ih counts k v h
    · have hres' : (pyLower name == "example_check") = false := by
        simpa using hres
      by_cases henb : (info.enabled.getD false) = true
      · simp only [custom_checks_loop, hres', henb, if_true,
          Bool.false_eq_true, if_false] at h
        rcases ih _ k v h with hmem | hne
        · rcases setKey_mem _ _ _ _ _ hmem with hmem2 | hkey
          · left; exact hmem2
          · right
            rw [hkey]
            exact beq_eq_false_iff_ne.mp hres'
        · right; exact hne
      · have henb' : (info.enabled.getD false) = false := by simpa using henb
        simp only [custom_checks_loop, hres', henb', Bool.false_eq_true,
          if_false] at h
        exact ih counts k v h

/-- C9. The reserved check name `example_check` (compared
case-insensitively) is always skipped regardless of its enabled flag:
running the loop equals running it on the configuration with all
reserved entries deleted, the executed queries are exactly those of the
enabled non-reserved entries, and no new hit count is recorded under a
reserved key. -/
theorem claim_C9 : ∀ (fetchLen : String → Nat)
    (checks : List (String × CustomCheck)) (counts : List (String × Nat)),
    custom_checks_loop fetchLen checks counts =
      custom_checks_loop fetchLen
        (checks.filter (fun c => !(pyLower c.1 == "example_check"))) counts ∧
    (custom_checks_loop fetchLen checks counts).2 =
      (checks.filter (fun c => !(pyLower c.1 == "example_check") &&
        c.2.enabled.getD false)).map (fun c => fromQuery c.2.email) ∧
    ∀ (k : String) (v : Nat),
      (k, v) ∈ (custom_checks_loop fetchLen checks counts).1 →
      (k, v) ∈ counts ∨ ¬ pyLower k = "example_check" := by
  intro fetchLen checks counts
  exact ⟨custom_checks_loop_skip_reserved fetchLen checks counts,
    custom_checks_loop_queries fetchLen checks counts,
    custom_checks_loop_counts_mem fetchLen checks counts⟩

/-- Witness for C9 at a configuration holding a reserved (enabled) entry
and one ordinary enabled entry. -/
theorem claim_C9_witness :
    ("Foo", 7) ∈ ([] : List (String × Nat)) ∨ ¬ pyLower "Foo" = "example_check" :=
  (claim_C9 (fun _ => 7) checksEx []).2.2 "Foo" 7 (by decide)

/-! ## Lemmas about the token extractor -/

/-- The pattern loop returns `none` exactly when no pattern's search
yields a captured value longer than 10 characters. -/
theorem extract_csrf_go_none_iff :
    ∀ (pats : List (List RItem)) (html : List Char),
    extract_csrf_go pats html = none ↔
      ∀ pat ∈ pats, ∀ t, reSearch pat html = some t → ¬ t.length > 10 := by
  intro pats
  induction pats with
  | nil => intro html; simp [extract_csrf_go]
  | cons pat rest ih =>
    intro html
    cases hs : reSearch pat html with
    | none =>
      rw [show extract_csrf_go (pat :: rest) html = extract_csrf_go rest html
        from by simp [extract_csrf_go, hs]]
      rw [ih html]
      constructor
      · intro h p hp t ht
        rcases List.mem_cons.mp hp with hp | hp
        · rw [hp] at ht
          rw [ht] at hs
          cases hs
        · exact h p hp t ht
      · intro h p hp t ht
        exact h p (List.mem_cons_of_mem _ hp) t ht
    | some tok =>
      by_cases hlen : tok.length > 10
      · rw [show extract_csrf_go (pat :: rest) html = some tok
          from by simp [extract_csrf_go, hs, hlen]]
        constructor
        · intro hc; cases hc
        · intro h
          exact absurd hlen (h pat (List.mem_cons_self _ _) tok hs)
      · rw [show extract_csrf_go (pat :: rest) html = extract_csrf_go rest html
          from by simp [extract_csrf_go, hs, hlen]]
        rw [ih html]
        constructor
        · intro h p hp t ht
          rcases List.mem_cons.mp hp with hp | hp
          · rw [hp] at ht
            rw [ht] at hs
            injection hs with he
            rw [he]
            exact hlen
          · exact h p hp t ht
        · intro h p hp t ht
          exact h p (List.mem_cons_of_mem _ hp) t ht

/-- A returned token is longer than 10 characters, comes from some
pattern in order, and every earlier pattern yielded no such value. -/
theorem extract_csrf_go_some :
    ∀ (pats : List (List RItem)) (html : List Char) (t : List Char),
    extract_csrf_go pats html = some t →
    t.length > 10 ∧ ∃ pre pat post, pats = pre ++ pat :: post ∧
      reSearch pat html = some t ∧
      ∀ p ∈ pre, ∀ u, reSearch p html = some u → ¬ u.length > 10 := by
  intro pats
  induction pats with
  | nil => intro html t h; simp [extract_csrf_go] at h
  | cons pat rest ih =>
    intro html t h
    cases hs : reSearch pat html with
    | none =>
      rw [show extract_csrf_go (pat :: rest) html = extract_csrf_go rest html
        from by simp [extract_csrf_go, hs]] at h
      obtain ⟨hlen, pre, p, post, heq, hsearch, hpre⟩ := ih html t h
      refine ⟨hlen, pat :: pre, p, post, by rw [heq]; rfl, hsearch, ?_⟩
      intro q hq u hu
      rcases List.mem_cons.mp hq with hq | hq
      · rw [hq] at hu
        rw [hu] at hs
        cases hs
      · exact hpre q hq u hu
    | some tok =>
      by_cases hlen : tok.length > 10
      · rw [show extract_csrf_go (pat :: rest) html = some tok
          from by simp [extract_csrf_go, hs, hlen]] at h
        injection h with h
        subst h
        refine ⟨hlen, [], pat, rest, rfl, hs, ?_⟩
        intro q hq
        simp at hq
      · rw [show extract_csrf_go (pat :: rest) html = extract_csrf_go rest html
          from by simp [extract_csrf_go, hs, hlen]] at h
        obtain ⟨hl2, pre, p, post, heq, hsearch, hpre⟩ := ih html t h
        refine ⟨hl2, pat :: pre, p, post, by rw [heq]; rfl, hsearch, ?_⟩
        intro q hq u hu
        rcases List.mem_cons.mp hq with hq | hq
        · rw [hq] at hu
          rw [hu] at hs
          injection hs with he
          rw [he]
          exact hlen
        · exact hpre q hq u hu

/-- C7. `_extract_csrf` applies the four pattern matchers in their fixed
order, returns the first captured value longer than 10 characters, and
returns `None` when no pattern yields such a value; on the spec's
meta-tag example it returns `abcdef0123456789`. -/
theorem claim_C7 :
    (∀ html : List Char, extract_csrf html = none ↔
      ∀ pat ∈ csrfPatterns, ∀ t, reSearch pat html = some t → ¬ t.length > 10) ∧
    (∀ (html t : List Char), extract_csrf html = some t →
      t.length > 10 ∧ ∃ pre pat post, csrfPatterns = pre ++ pat :: post ∧
        reSearch pat html = some t ∧
        ∀ p ∈ pre, ∀ u, reSearch p html = some u → ¬ u.length > 10) ∧
    extract_csrf metaExample = some "abcdef0123456789".toList := by
  refine ⟨?_, ?_, by decide⟩
  · intro html
    exact extract_csrf_go_none_iff csrfPatterns html
  · intro html t h
    exact extract_csrf_go_some csrfPatterns html t h

/-- Witness for C7 at the spec's meta-tag example body. -/
theorem claim_C7_witness :
    ("abcdef0123456789".toList).length > 10 ∧
    ∃ pre pat post, csrfPatterns = pre ++ pat :: post ∧
      reSearch pat metaExample = some "abcdef0123456789".toList ∧
      ∀ p ∈ pre, ∀ u, reSearch p metaExample = some u → ¬ u.length > 10 :=
  claim_C7.2.1 metaExample "abcdef0123456789".toList claim_C7.2.2
